import Mathlib

/-!
Verification development for the growable length-framed ring buffer in
`circular_buffer/paging_buffer.go` (package `controller`).

The Go code is shallowly embedded: the byte arena `data []byte` becomes a
`List Nat`, the cursors `head`/`tail` become `Nat` (in the Go code they are
only ever incremented and wrapped back into range, never negative), and
`count` becomes `Int` (Go `int`, decremented without a guard).  Go's
`copy(dst[off:], src)` builtin is modelled by `listCopy`.  The mutex is not
modelled (all operations are sequentialized); everything else follows the
source line by line.
-/

set_option maxHeartbeats 1000000

/-- Model of Go `copy(dst[off:], src)`: overwrite `dst` starting at `off`
with as many elements of `src` as fit, returning the new list and the
number of elements copied.  The length of `dst` is preserved. -/
def listCopy (dst src : List Nat) (off : Nat) : List Nat × Nat :=
  let n := min src.length (dst.length - off)
  (dst.take off ++ src.take n ++ dst.drop (off + n), n)

/-- The `Buffer` struct of `paging_buffer.go` (package `controller`).
`data` is the circular arena; if `head ≤ tail` the useful data is
`[head, tail)`, otherwise it is `[head, len) ∪ [0, tail)`; one byte is
always kept unused to disambiguate the `head = tail` (empty) state.
Each packet is prefixed by a 2-byte big-endian length header. -/
structure Buffer where
  data : List Nat
  head : Nat
  tail : Nat
  count : Int
deriving DecidableEq

/-- `minSize = 2048` from the Go source. -/
def minSize : Nat := 2048

/-- `cutoffSize = 128 * 1024` from the Go source. -/
def cutoffSize : Nat := 128 * 1024

/-- The errors the buffer can produce: `ErrPacketTooBig`, and the
"short buffer, at least %d is needed" error built in `Read` (the carried
`Nat` is the `%d`, i.e. the minimum destination size required). -/
inductive BufErr where
  | packetTooBig : BufErr
  | shortBuffer : Nat → BufErr
deriving DecidableEq

/-- `NewBuffer()`: a fresh buffer with no arena. -/
def NewBuffer : Buffer := { data := [], head := 0, tail := 0, count := 0 }

/-- `Buffer.available(size int) bool`: free bytes are `head - tail`, plus
the capacity when that raw difference is `≤ 0`; report whether
`size + 2 + 1` of them exist (2-byte header plus reserved byte). -/
def Buffer.available (b : Buffer) (size : Nat) : Bool :=
  let a : Int := (b.head : Int) - (b.tail : Int)
  let a : Int := if a ≤ 0 then a + (b.data.length : Int) else a
  if (size : Int) + 2 + 1 > a then false else true

/-- `Buffer.grow()`: double the capacity below `cutoffSize`, grow by 5/4
at or above it, with a floor of `minSize`; copy the live bytes (contiguous
or wrapped) to offset 0 of the new arena; `head = 0`, `tail = ` bytes
copied.  (In Go, `grow` always returns `nil`, so it is modelled as a pure
state transformer.) -/
def Buffer.grow (b : Buffer) : Buffer :=
  let newsize := if b.data.length < cutoffSize then 2 * b.data.length
    else 5 * b.data.length / 4
  let newsize := if newsize < minSize then minSize else newsize
  let newdata := List.replicate newsize 0
  if b.head ≤ b.tail then
    let c := listCopy newdata ((b.data.drop b.head).take (b.tail - b.head)) 0
    { data := c.1, head := 0, tail := c.2, count := b.count }
  else
    let c1 := listCopy newdata (b.data.drop b.head) 0
    let c2 := listCopy c1.1 (b.data.take b.tail) c1.2
    { data := c2.1, head := 0, tail := c1.2 + c2.2, count := b.count }

/-- The `for !b.available(...) { b.grow() }` loop of `Write`, with an
explicit iteration bound (`grow` strictly increases capacity, so the
bound `Buffer.growFuel` below provably suffices; see
`growLoop_available`). -/
def Buffer.growLoop : Buffer → Nat → Nat → Buffer
  | b, _, 0 => b
  | b, size, fuel + 1 => if b.available size then b else (b.grow).growLoop size fuel

/-- An iteration bound for the growth loop that always suffices. -/
def Buffer.growFuel (b : Buffer) (len : Nat) : Nat :=
  b.data.length + b.tail + len + 8

/-- The repeated statement pattern
`b.data[b.tail] = x; b.tail++; if b.tail >= len(b.data) { b.tail = 0 }`
used twice by `Write` for the two header bytes. -/
def Buffer.putByte (b : Buffer) (x : Nat) : Buffer :=
  let b1 : Buffer := { b with data := b.data.set b.tail x, tail := b.tail + 1 }
  if b1.tail ≥ b1.data.length then { b1 with tail := 0 } else b1

/-- The payload store of `Write`:
`n := copy(b.data[b.tail:], packet); b.tail += n;`
`if b.tail >= len(b.data) { m := copy(b.data, packet[n:]); b.tail = m }`. -/
def Buffer.putBytes (b : Buffer) (packet : List Nat) : Buffer :=
  let c := listCopy b.data packet b.tail
  let b1 : Buffer := { b with data := c.1, tail := b.tail + c.2 }
  if b1.tail ≥ b1.data.length then
    let c2 := listCopy b1.data (packet.drop c.2) 0
    { b1 with data := c2.1, tail := c2.2 }
  else b1

/-- `Buffer.Write(packet []byte) (int, error)`: reject packets of length
`≥ 0x10000`; grow until the packet fits; store the big-endian 2-byte
length header byte by byte (`uint8(len >> 8)` then `uint8(len)`), then
the payload; increment `count`; return `len(packet)`. -/
def Buffer.Write (b : Buffer) (packet : List Nat) : Buffer × Nat × Option BufErr :=
  if packet.length ≥ 65536 then (b, 0, some BufErr.packetTooBig) else
  let b1 := b.growLoop packet.length (b.growFuel packet.length)
  let b2 := b1.putByte (packet.length / 256 % 256)
  let b3 := b2.putByte (packet.length % 256)
  let b4 := b3.putBytes packet
  ({ b4 with count := b4.count + 1 }, packet.length, none)

/-- The repeated statement pattern
`x := b.data[b.head]; b.head++; if b.head >= len(b.data) { b.head = 0 }`
used twice by `Read` for the two header bytes.  (Go indexing would panic
out of range; `getD _ 0` stands in, and all uses are proved in range.) -/
def Buffer.takeByte (b : Buffer) : Buffer × Nat :=
  let x := b.data.getD b.head 0
  let b1 : Buffer := { b with head := b.head + 1 }
  ((if b1.head ≥ b1.data.length then { b1 with head := 0 } else b1), x)

/-- The payload copy of `Read` into the destination `packet`:
contiguous when `head + copied < len(data)`, otherwise
`k := copy(packet, b.data[b.head:]); copy(packet[k:], b.data[:copied-k])`. -/
def Buffer.peekBytes (b : Buffer) (packet : List Nat) (copied : Nat) : List Nat :=
  if b.head + copied < b.data.length then
    (listCopy packet ((b.data.drop b.head).take copied) 0).1
  else
    let c1 := listCopy packet (b.data.drop b.head) 0
    (listCopy c1.1 (b.data.take (copied - c1.2)) c1.2).1

/-- `Buffer.Read(packet []byte) (int, error)`: if non-empty, decode the
2-byte big-endian length (advancing `head` past the header); fail with
the short-buffer error if the destination is smaller than that length
(note: `head` is NOT restored in this path, exactly as in the source);
otherwise copy the payload out, advance `head`, reset both cursors to 0
when the buffer became empty, and decrement `count`.  Returns the updated
buffer, the updated destination, the byte count and the error. -/
def Buffer.Read (b : Buffer) (packet : List Nat) : Buffer × List Nat × Nat × Option BufErr :=
  if b.head ≠ b.tail then
    let r1 := b.takeByte
    let r2 := r1.1.takeByte
    let b4 := r2.1
    let cnt := r1.2 * 256 + r2.2
    if packet.length < cnt then
      (b4, packet, 0, some (BufErr.shortBuffer cnt))
    else
      let packet1 := b4.peekBytes packet cnt
      let b5 : Buffer := { b4 with head := b4.head + cnt }
      let b6 : Buffer := if b5.head ≥ b5.data.length then
        { b5 with head := b5.head - b5.data.length } else b5
      let b7 : Buffer := if b6.head = b6.tail then { b6 with head := 0, tail := 0 } else b6
      ({ b7 with count := b7.count - 1 }, packet1, cnt, none)
  else
    (b, packet, 0, none)

/-- `Buffer.size() int`: `tail - head`, plus the capacity when negative. -/
def Buffer.size (b : Buffer) : Int :=
  let s : Int := (b.tail : Int) - (b.head : Int)
  if s < 0 then s + (b.data.length : Int) else s

/-- `Buffer.Count() int`. -/
def Buffer.Count (b : Buffer) : Int := b.count

/-- `Buffer.Size() int`. -/
def Buffer.Size (b : Buffer) : Int := b.size

def liveSeg (d : List Nat) (h t : Nat) : List Nat :=
  if h ≤ t then (d.drop h).take (t - h) else d.drop h ++ d.take t

def liveBytes (b : Buffer) : List Nat := liveSeg b.data b.head b.tail

def growSize (n : Nat) : Nat :=
  let m := if n < cutoffSize then 2 * n else 5 * n / 4
  if m < minSize then minSize else m

def BufOk (b : Buffer) : Prop :=
  (b.data.length = 0 ∧ b.head = 0 ∧ b.tail = 0) ∨
  (b.head < b.data.length ∧ b.tail < b.data.length ∧ (liveBytes b).length < b.data.length)

def encodePkt (p : List Nat) : List Nat :=
  (p.length / 256 % 256) :: (p.length % 256) :: p

def encodeAll (ps : List (List Nat)) : List Nat := (ps.map encodePkt).join

def Wf (b : Buffer) (ps : List (List Nat)) : Prop :=
  b.count = (ps.length : Int) ∧
  liveBytes b = encodeAll ps ∧
  (∀ p ∈ ps, p.length < 65536) ∧
  BufOk b

def writeAll (b : Buffer) (ps : List (List Nat)) : Buffer :=
  ps.foldl (fun a p => (a.Write p).1) b

def readSeq : Buffer → List (List Nat) → List (List Nat × Nat × Option BufErr)
  | _, [] => []
  | b, dst :: ds =>
    let r := b.Read dst
    (r.2.1, r.2.2.1, r.2.2.2) :: readSeq r.1 ds

def readN : Buffer → List Nat → Nat → Buffer
  | b, _, 0 => b
  | b, dst, n + 1 => readN (b.Read dst).1 dst n

inductive BufOp where
  | wr : List Nat → BufOp
  | rd : List Nat → BufOp
deriving DecidableEq

def applyOp (b : Buffer) : BufOp → Buffer
  | BufOp.wr p => (b.Write p).1
  | BufOp.rd dst => (b.Read dst).1

def execOps (b : Buffer) (ops : List BufOp) : Buffer := ops.foldl applyOp b

def absApply (ps : List (List Nat)) : BufOp → List (List Nat)
  | BufOp.wr p => if p.length < 65536 then ps ++ [p] else ps
  | BufOp.rd _ => ps.tail

def absRun (ps : List (List Nat)) (ops : List BufOp) : List (List Nat) :=
  ops.foldl absApply ps

def okOps : List (List Nat) → List BufOp → Bool
  | _, [] => true
  | ps, BufOp.wr p :: rest => okOps (absApply ps (BufOp.wr p)) rest
  | ps, BufOp.rd dst :: rest =>
    (match ps with
      | [] => true
      | q :: _ => decide (q.length ≤ dst.length)) && okOps (absApply ps (BufOp.rd dst)) rest

def specFreeBytes (b : Buffer) : Int :=
  let raw : Int := (b.head : Int) - (b.tail : Int)
  if raw ≤ 0 then raw + (b.data.length : Int) else raw

lemma getElem_idx_congr (l : List Nat) (a b : Nat) (hab : a = b)
    (ha : a < l.length) (hb : b < l.length) : l[a] = l[b] := by
  subst hab; rfl

lemma listCopy_length (dst src : List Nat) (off : Nat) :
    ((listCopy dst src off).1).length = dst.length := by
  simp only [listCopy]
  simp
  omega

lemma liveSeg_length (d : List Nat) (h t : Nat) (hh : h < d.length) (ht : t < d.length) :
    (liveSeg d h t).length = if h ≤ t then t - h else d.length - h + t := by
  unfold liveSeg
  split <;> simp <;> omega

lemma putBytes_eq_nowrap (d xs : List Nat) (h t : Nat) (c : Int)
    (hsmall : t + xs.length < d.length) :
    Buffer.putBytes ⟨d, h, t, c⟩ xs =
      ⟨d.take t ++ xs ++ d.drop (t + xs.length), h, t + xs.length, c⟩ := by
  simp only [Buffer.putBytes, listCopy]
  have hn : min xs.length (d.length - t) = xs.length := by omega
  rw [hn]
  have hlen1 : (d.take t ++ xs.take xs.length ++ d.drop (t + xs.length)).length = d.length := by
    simp; omega
  rw [hlen1, if_neg (by omega), List.take_length]

lemma putBytes_eq_wrap (d xs : List Nat) (h t : Nat) (c : Int)
    (ht : t < d.length) (hbig : d.length ≤ t + xs.length) (hxs : xs.length < d.length) :
    Buffer.putBytes ⟨d, h, t, c⟩ xs =
      ⟨xs.drop (d.length - t) ++
          (d.take t ++ xs.take (d.length - t)).drop (xs.length - (d.length - t)),
        h, xs.length - (d.length - t), c⟩ := by
  simp only [Buffer.putBytes, listCopy]
  have hn : min xs.length (d.length - t) = d.length - t := by omega
  rw [hn]
  have hdrop : d.drop (t + (d.length - t)) = [] := List.drop_eq_nil_of_le (by omega)
  rw [hdrop, List.append_nil]
  have hlen1 : (d.take t ++ xs.take (d.length - t)).length = d.length := by
    simp; omega
  rw [hlen1, if_pos (by omega)]
  simp only [List.length_drop, hlen1, Nat.sub_zero]
  have hm : min (xs.length - (d.length - t)) d.length = xs.length - (d.length - t) := by omega
  rw [hm]
  have htk : (xs.drop (d.length - t)).take (xs.length - (d.length - t)) = xs.drop (d.length - t) := by
    apply List.take_of_length_le
    simp
  rw [htk]
  simp

lemma liveSeg_set_step (d : List Nat) (x : Nat) (h t : Nat)
    (hh : h < d.length) (ht : t < d.length)
    (hroom : (liveSeg d h t).length + 2 ≤ d.length) :
    liveSeg (d.set t x) h (if t + 1 ≥ d.length then 0 else t + 1) = liveSeg d h t ++ [x] := by
  have hlen := liveSeg_length d h t hh ht
  by_cases hcase : h ≤ t
  · rw [if_pos hcase] at hlen
    by_cases hw : t + 1 ≥ d.length
    · rw [if_pos hw]
      rw [liveSeg, if_neg (by omega), liveSeg, if_pos hcase]
      apply List.ext_getElem
      · simp; omega
      intro i hi1 hi2
      simp only [List.length_append, List.length_take, List.length_drop, List.length_set,
        List.length_singleton, List.take_zero, List.append_nil] at hi1 hi2
      simp only [List.getElem_append, List.getElem_take, List.getElem_drop, List.getElem_set,
        List.getElem_singleton, List.length_append, List.length_take, List.length_drop,
        List.length_set, List.length_singleton, List.take_zero, List.append_nil]
      split_ifs <;> first
        | rfl
        | omega
    · rw [if_neg hw]
      rw [liveSeg, if_pos (by omega), liveSeg, if_pos hcase]
      apply List.ext_getElem
      · simp; omega
      intro i hi1 hi2
      simp only [List.length_append, List.length_take, List.length_drop, List.length_set,
        List.length_singleton, List.take_zero, List.append_nil] at hi1 hi2
      simp only [List.getElem_append, List.getElem_take, List.getElem_drop, List.getElem_set,
        List.getElem_singleton, List.length_append, List.length_take, List.length_drop,
        List.length_set, List.length_singleton, List.take_zero, List.append_nil]
      split_ifs <;> first
        | rfl
        | omega
  · rw [if_neg hcase] at hlen
    rw [if_neg (by omega)]
    rw [liveSeg, if_neg (by omega), liveSeg, if_neg hcase]
    apply List.ext_getElem
    · simp; omega
    intro i hi1 hi2
    simp only [List.length_append, List.length_take, List.length_drop, List.length_set,
      List.length_singleton, List.take_zero, List.append_nil] at hi1 hi2
    simp only [List.getElem_append, List.getElem_take, List.getElem_drop, List.getElem_set,
      List.getElem_singleton, List.length_append, List.length_take, List.length_drop,
      List.length_set, List.length_singleton, List.take_zero, List.append_nil]
    split_ifs <;> first
      | rfl
      | omega

lemma putBytes_spec (d xs : List Nat) (h t : Nat) (c : Int)
    (hh : h < d.length) (ht : t < d.length)
    (hroom : (liveSeg d h t).length + xs.length + 1 ≤ d.length) :
    (Buffer.putBytes ⟨d, h, t, c⟩ xs).data.length = d.length ∧
    (Buffer.putBytes ⟨d, h, t, c⟩ xs).head = h ∧
    (Buffer.putBytes ⟨d, h, t, c⟩ xs).count = c ∧
    (Buffer.putBytes ⟨d, h, t, c⟩ xs).tail < d.length ∧
    liveSeg (Buffer.putBytes ⟨d, h, t, c⟩ xs).data h (Buffer.putBytes ⟨d, h, t, c⟩ xs).tail
      = liveSeg d h t ++ xs := by
  have hlen := liveSeg_length d h t hh ht
  by_cases hw : t + xs.length < d.length
  · rw [putBytes_eq_nowrap d xs h t c hw]
    dsimp only
    refine ⟨by simp; omega, rfl, rfl, by omega, ?_⟩
    by_cases hcase : h ≤ t
    · rw [liveSeg, if_pos (by omega : h ≤ t + xs.length), liveSeg, if_pos hcase]
      apply List.ext_getElem
      · simp; omega
      intro i hi1 hi2
      simp only [List.length_append, List.length_take, List.length_drop] at hi1 hi2
      simp only [List.getElem_append, List.getElem_take, List.getElem_drop,
        List.length_append, List.length_take, List.length_drop]
      split_ifs <;> first
        | rfl
        | omega
        | (exact getElem_idx_congr _ _ _ (by omega) (by omega) (by omega))
    · rw [if_neg hcase] at hlen
      rw [liveSeg, if_neg (by omega), liveSeg, if_neg hcase]
      apply List.ext_getElem
      · simp; omega
      intro i hi1 hi2
      simp only [List.length_append, List.length_take, List.length_drop] at hi1 hi2
      simp only [List.getElem_append, List.getElem_take, List.getElem_drop,
        List.length_append, List.length_take, List.length_drop]
      split_ifs <;> first
        | rfl
        | omega
        | (exact getElem_idx_congr _ _ _ (by omega) (by omega) (by omega))
  · have hcase : h ≤ t := by
      by_contra hcon
      rw [if_neg hcon] at hlen
      omega
    rw [if_pos hcase] at hlen
    rw [putBytes_eq_wrap d xs h t c ht (by omega) (by omega)]
    dsimp only
    refine ⟨by simp; omega, rfl, rfl, by omega, ?_⟩
    rw [liveSeg, if_neg (by simp; omega), liveSeg, if_pos hcase]
    apply List.ext_getElem
    · simp; omega
    intro i hi1 hi2
    simp only [List.length_append, List.length_take, List.length_drop] at hi1 hi2
    simp only [List.getElem_append, List.getElem_take, List.getElem_drop,
      List.length_append, List.length_take, List.length_drop]
    split_ifs <;> first
      | rfl
      | omega
      | (exact getElem_idx_congr _ _ _ (by omega) (by omega) (by omega))

lemma liveSeg_self (d : List Nat) (a : Nat) : liveSeg d a a = [] := by
  simp [liveSeg]

lemma liveSeg_cons (d : List Nat) (h t : Nat)
    (hh : h < d.length) (ht : t < d.length) (hne : h ≠ t) :
    liveSeg d h t = d.getD h 0 :: liveSeg d (if h + 1 ≥ d.length then 0 else h + 1) t := by
  rw [List.getD_eq_getElem d 0 hh]
  by_cases hcase : h ≤ t
  · have hlt : h < t := by omega
    rw [if_neg (by omega)]
    rw [liveSeg, if_pos hcase, liveSeg, if_pos (by omega)]
    apply List.ext_getElem
    · simp; omega
    intro i hi1 hi2
    simp only [List.length_take, List.length_drop, List.length_cons] at hi1 hi2
    simp only [List.getElem_take, List.getElem_drop, List.getElem_cons]
    split_ifs <;> first
      | omega
      | (exact getElem_idx_congr _ _ _ (by omega) (by omega) (by omega))
  · by_cases hw : h + 1 ≥ d.length
    · rw [if_pos hw]
      rw [liveSeg, if_neg hcase, liveSeg, if_pos (by omega)]
      apply List.ext_getElem
      · simp; omega
      intro i hi1 hi2
      simp only [List.length_append, List.length_take, List.length_drop, List.length_cons] at hi1 hi2
      simp only [List.getElem_append, List.getElem_take, List.getElem_drop, List.getElem_cons,
        List.length_append, List.length_take, List.length_drop]
      split_ifs <;> first
        | omega
        | (exact getElem_idx_congr _ _ _ (by omega) (by omega) (by omega))
    · rw [if_neg hw]
      rw [liveSeg, if_neg hcase, liveSeg, if_neg (by omega)]
      apply List.ext_getElem
      · simp; omega
      intro i hi1 hi2
      simp only [List.length_append, List.length_take, List.length_drop, List.length_cons] at hi1 hi2
      simp only [List.getElem_append, List.getElem_take, List.getElem_drop, List.getElem_cons,
        List.length_append, List.length_take, List.length_drop]
      split_ifs <;> first
        | omega
        | (exact getElem_idx_congr _ _ _ (by omega) (by omega) (by omega))

lemma takeByte_spec (d : List Nat) (h t : Nat) (c : Int) (x : Nat) (L : List Nat)
    (hh : h < d.length) (ht : t < d.length) (hlive : liveSeg d h t = x :: L) :
    (Buffer.takeByte ⟨d, h, t, c⟩).2 = x ∧
    (Buffer.takeByte ⟨d, h, t, c⟩).1.data = d ∧
    (Buffer.takeByte ⟨d, h, t, c⟩).1.tail = t ∧
    (Buffer.takeByte ⟨d, h, t, c⟩).1.count = c ∧
    (Buffer.takeByte ⟨d, h, t, c⟩).1.head < d.length ∧
    liveSeg d (Buffer.takeByte ⟨d, h, t, c⟩).1.head t = L := by
  have hne : h ≠ t := by
    intro hcon
    rw [hcon, liveSeg_self] at hlive
    exact List.noConfusion hlive
  have hcons := liveSeg_cons d h t hh ht hne
  rw [hlive] at hcons
  simp only [Buffer.takeByte]
  by_cases hw : h + 1 ≥ d.length
  · rw [if_pos hw] at hcons ⊢
    dsimp only
    exact ⟨(List.cons.injEq _ _ _ _ ▸ hcons).1.symm, rfl, rfl, rfl, by omega,
      ((List.cons.injEq _ _ _ _ ▸ hcons).2).symm⟩
  · rw [if_neg hw] at hcons ⊢
    dsimp only
    exact ⟨(List.cons.injEq _ _ _ _ ▸ hcons).1.symm, rfl, rfl, rfl, by omega,
      ((List.cons.injEq _ _ _ _ ▸ hcons).2).symm⟩

lemma peekBytes_spec (d dst : List Nat) (h t cnt : Nat) (c : Int)
    (hh : h < d.length) (ht : t < d.length)
    (hcnt : cnt ≤ (liveSeg d h t).length) (hdst : cnt ≤ dst.length) :
    Buffer.peekBytes ⟨d, h, t, c⟩ dst cnt = (liveSeg d h t).take cnt ++ dst.drop cnt := by
  have hlen := liveSeg_length d h t hh ht
  simp only [Buffer.peekBytes, listCopy]
  by_cases hcase : h ≤ t
  · rw [if_pos hcase] at hlen
    rw [if_pos (by omega)]
    rw [liveSeg, if_pos hcase]
    apply List.ext_getElem
    · simp; omega
    intro i hi1 hi2
    simp only [List.length_append, List.length_take, List.length_drop, List.take_zero,
      List.nil_append, List.drop_zero, Nat.sub_zero, Nat.zero_add] at hi1 hi2
    simp only [List.getElem_append, List.getElem_take, List.getElem_drop, List.length_append,
      List.length_take, List.length_drop, List.take_zero, List.nil_append, List.drop_zero,
      Nat.sub_zero, Nat.zero_add]
    split_ifs <;> first
      | rfl
      | omega
      | (exact getElem_idx_congr _ _ _ (by omega) (by omega) (by omega))
  · rw [if_neg hcase] at hlen
    rw [liveSeg, if_neg hcase]
    by_cases hin : h + cnt < d.length
    · rw [if_pos (by omega)]
      apply List.ext_getElem
      · simp; omega
      intro i hi1 hi2
      simp only [List.length_append, List.length_take, List.length_drop, List.take_zero,
        List.nil_append, List.drop_zero, Nat.sub_zero, Nat.zero_add] at hi1 hi2
      simp only [List.getElem_append, List.getElem_take, List.getElem_drop, List.length_append,
        List.length_take, List.length_drop, List.take_zero, List.nil_append, List.drop_zero,
        Nat.sub_zero, Nat.zero_add]
      split_ifs <;> first
        | rfl
        | omega
        | (exact getElem_idx_congr _ _ _ (by omega) (by omega) (by omega))
    · rw [if_neg (by omega)]
      apply List.ext_getElem
      · simp; omega
      intro i hi1 hi2
      simp only [List.length_append, List.length_take, List.length_drop, List.take_zero,
        List.nil_append, List.drop_zero, Nat.sub_zero, Nat.zero_add] at hi1 hi2
      simp only [List.getElem_append, List.getElem_take, List.getElem_drop, List.length_append,
        List.length_take, List.length_drop, List.take_zero, List.nil_append, List.drop_zero,
        Nat.sub_zero, Nat.zero_add]
      split_ifs <;> first
        | rfl
        | omega
        | (exact getElem_idx_congr _ _ _ (by omega) (by omega) (by omega))

lemma liveSeg_advance (d : List Nat) (h t cnt : Nat)
    (hh : h < d.length) (ht : t < d.length)
    (hcnt : cnt ≤ (liveSeg d h t).length) :
    (if h + cnt ≥ d.length then h + cnt - d.length else h + cnt) < d.length ∧
    liveSeg d (if h + cnt ≥ d.length then h + cnt - d.length else h + cnt) t
      = (liveSeg d h t).drop cnt := by
  have hlen := liveSeg_length d h t hh ht
  by_cases hcase : h ≤ t
  · rw [if_pos hcase] at hlen
    rw [if_neg (by omega)]
    refine ⟨by omega, ?_⟩
    rw [liveSeg, if_pos (by omega : h + cnt ≤ t), liveSeg, if_pos hcase]
    apply List.ext_getElem
    · simp; omega
    intro i hi1 hi2
    simp only [List.length_take, List.length_drop] at hi1 hi2
    simp only [List.getElem_take, List.getElem_drop]
    exact getElem_idx_congr _ _ _ (by omega) (by omega) (by omega)
  · rw [if_neg hcase] at hlen
    by_cases hw : h + cnt ≥ d.length
    · rw [if_pos hw]
      refine ⟨by omega, ?_⟩
      rw [liveSeg, if_pos (by omega : h + cnt - d.length ≤ t), liveSeg, if_neg hcase]
      apply List.ext_getElem
      · simp; omega
      intro i hi1 hi2
      simp only [List.length_append, List.length_take, List.length_drop] at hi1 hi2
      simp only [List.getElem_append, List.getElem_take, List.getElem_drop, List.length_append,
        List.length_take, List.length_drop]
      split_ifs <;> first
        | rfl
        | omega
        | (exact getElem_idx_congr _ _ _ (by omega) (by omega) (by omega))
    · rw [if_neg hw]
      refine ⟨by omega, ?_⟩
      rw [liveSeg, if_neg (by omega : ¬ h + cnt ≤ t), liveSeg, if_neg hcase]
      apply List.ext_getElem
      · simp; omega
      intro i hi1 hi2
      simp only [List.length_append, List.length_take, List.length_drop] at hi1 hi2
      simp only [List.getElem_append, List.getElem_take, List.getElem_drop, List.length_append,
        List.length_take, List.length_drop]
      split_ifs <;> first
        | rfl
        | omega
        | (exact getElem_idx_congr _ _ _ (by omega) (by omega) (by omega))

lemma growSize_gt (n : Nat) : n < growSize n := by
  unfold growSize minSize cutoffSize
  dsimp only
  split <;> split <;> omega

lemma growSize_ge_minSize (n : Nat) : minSize ≤ growSize n := by
  unfold growSize minSize cutoffSize
  dsimp only
  split_ifs <;> omega

lemma grow_spec (b : Buffer) (hok : BufOk b) :
    (b.grow).data.length = growSize b.data.length ∧
    (b.grow).head = 0 ∧
    (b.grow).tail = (liveBytes b).length ∧
    (b.grow).count = b.count ∧
    liveBytes (b.grow) = liveBytes b := by
  obtain ⟨d, h, t, c⟩ := b
  simp only [liveBytes, BufOk] at *
  have hgs := growSize_gt d.length
  rcases hok with ⟨hd0, hh0, ht0⟩ | ⟨hh, ht, hlive⟩
  · rw [List.length_eq_zero] at hd0
    subst hd0 hh0 ht0
    simp [Buffer.grow, listCopy, liveSeg, growSize]
  · have hlen := liveSeg_length d h t hh ht
    simp only [Buffer.grow]
    set ns : Nat := if (if d.length < cutoffSize then 2 * d.length
      else 5 * d.length / 4) < minSize then minSize
      else if d.length < cutoffSize then 2 * d.length else 5 * d.length / 4 with hns
    have hgseq : growSize d.length = ns := by rw [hns]; rfl
    rw [hgseq] at hgs
    by_cases hcase : h ≤ t
    · rw [if_pos hcase] at hlen
      rw [if_pos hcase]
      have hsrclen : ((d.drop h).take (t - h)).length = t - h := by simp; omega
      have hc : listCopy (List.replicate ns 0) ((d.drop h).take (t - h)) 0
          = ((d.drop h).take (t - h) ++ List.replicate (ns - (t - h)) 0, t - h) := by
        simp only [listCopy, Prod.mk.injEq]
        have hn : min ((d.drop h).take (t - h)).length ((List.replicate ns 0).length - 0)
            = t - h := by simp; omega
        rw [hn]
        refine ⟨?_, rfl⟩
        rw [List.take_zero, List.nil_append, Nat.zero_add, List.drop_replicate,
          List.take_of_length_le (le_of_eq hsrclen)]
      rw [hc]
      refine ⟨?_, rfl, ?_, rfl, ?_⟩
      · dsimp only
        rw [hgseq]
        simp
        omega
      · dsimp only
        omega
      · dsimp only
        rw [liveSeg, if_pos (by omega), liveSeg, if_pos hcase]
        rw [List.drop_zero, Nat.sub_zero, List.take_append_eq_append_take,
          List.take_of_length_le (le_of_eq hsrclen), hsrclen, Nat.sub_self,
          List.take_zero, List.append_nil]
    · rw [if_neg hcase] at hlen
      rw [if_neg hcase]
      have hdroplen : (d.drop h).length = d.length - h := by simp
      have hc1 : listCopy (List.replicate ns 0) (d.drop h) 0
          = (d.drop h ++ List.replicate (ns - (d.length - h)) 0, d.length - h) := by
        simp only [listCopy, Prod.mk.injEq]
        have hn : min (d.drop h).length ((List.replicate ns 0).length - 0)
            = d.length - h := by simp; omega
        rw [hn]
        refine ⟨?_, by simp⟩
        rw [List.take_zero, List.nil_append, Nat.zero_add, List.drop_replicate,
          List.take_of_length_le (le_of_eq hdroplen)]
      rw [hc1]
      have htlen : (d.take t).length = t := by simp; omega
      have hc2 : listCopy (d.drop h ++ List.replicate (ns - (d.length - h)) 0)
            (d.take t) (d.length - h)
          = (d.drop h ++ d.take t ++ List.replicate (ns - (d.length - h) - t) 0, t) := by
        simp only [listCopy, Prod.mk.injEq]
        have hn : min (d.take t).length
            ((d.drop h ++ List.replicate (ns - (d.length - h)) 0).length - (d.length - h))
            = t := by simp; omega
        rw [hn]
        refine ⟨?_, rfl⟩
        rw [List.take_of_length_le (le_of_eq htlen)]
        rw [List.take_append_eq_append_take, List.take_of_length_le (le_of_eq hdroplen),
          hdroplen, Nat.sub_self, List.take_zero, List.append_nil]
        rw [List.drop_append_eq_append_drop, hdroplen]
        rw [@List.drop_eq_nil_of_le _ (List.drop h d) (d.length - h + t) (by rw [hdroplen]; omega)]
        have hz2 : d.length - h + t - (d.length - h) = t := by omega
        rw [hz2, List.drop_replicate, List.nil_append, List.append_assoc]
      rw [hc2]
      refine ⟨?_, rfl, ?_, rfl, ?_⟩
      · dsimp only
        rw [hgseq]
        simp
        omega
      · dsimp only
        omega
      · dsimp only
        rw [liveSeg, if_pos (by omega), liveSeg, if_neg hcase]
        rw [List.drop_zero, Nat.sub_zero, List.take_append_eq_append_take]
        rw [List.take_of_length_le (by simp; try omega)]
        have hz0 : d.length - h + t - (List.drop h d ++ List.take t d).length = 0 := by
          simp; omega
        rw [hz0, List.take_zero, List.append_nil]

lemma liveBytes_le_data (b : Buffer) (hok : BufOk b) :
    (liveBytes b).length ≤ b.data.length := by
  obtain ⟨d, h, t, c⟩ := b
  simp only [liveBytes, BufOk] at *
  rcases hok with ⟨hd0, hh0, ht0⟩ | ⟨hh, ht, hlive⟩
  · rw [List.length_eq_zero] at hd0
    subst hd0 hh0 ht0
    simp [liveSeg]
  · omega

lemma available_iff (b : Buffer) (hok : BufOk b) (s : Nat) :
    (b.available s = true) ↔ (s + 3 + (liveBytes b).length ≤ b.data.length) := by
  obtain ⟨d, h, t, c⟩ := b
  simp only [liveBytes, BufOk, Buffer.available] at *
  rcases hok with ⟨hd0, hh0, ht0⟩ | ⟨hh, ht, hlive⟩ <;>
    [skip; have hlen := liveSeg_length d h t hh ht] <;>
    constructor <;> intro hx
  · rw [List.length_eq_zero] at hd0
    subst hd0 hh0 ht0
    simp at hx
    omega
  · rw [List.length_eq_zero] at hd0
    subst hd0 hh0 ht0
    simp [liveSeg] at hx
  · rw [hlen]
    split at hx <;> split_ifs at hx <;> split <;> push_cast at * <;> omega
  · rw [hlen] at hx
    split at hx <;> split_ifs <;> push_cast at * <;> first | rfl | omega

lemma growLoop_spec : ∀ (fuel : Nat) (b : Buffer) (s : Nat), BufOk b →
    s + 3 + (liveBytes b).length ≤ b.data.length + fuel →
    BufOk (Buffer.growLoop b s fuel) ∧
    liveBytes (Buffer.growLoop b s fuel) = liveBytes b ∧
    (Buffer.growLoop b s fuel).count = b.count ∧
    s + 3 + (liveBytes b).length ≤ (Buffer.growLoop b s fuel).data.length := by
  intro fuel
  induction fuel with
  | zero =>
    intro b s hok hf
    simp only [Buffer.growLoop]
    exact ⟨hok, trivial, trivial, by simpa using hf⟩
  | succ n ih =>
    intro b s hok hf
    simp only [Buffer.growLoop]
    by_cases ha : b.available s
    · rw [if_pos ha]
      exact ⟨hok, rfl, rfl, (available_iff b hok s).1 ha⟩

    · rw [if_neg ha]
      obtain ⟨hg1, hg2, hg3, hg4, hg5⟩ := grow_spec b hok
      have hgs := growSize_gt b.data.length
      have hgm := growSize_ge_minSize b.data.length
      have hlb := liveBytes_le_data b hok
      have hokg : BufOk b.grow := by
        right
        refine ⟨?_, ?_, ?_⟩
        · rw [hg2, hg1]
          unfold minSize at hgm
          omega
        · rw [hg3, hg1]
          omega
        · rw [hg5, hg1]
          omega
      have hfg : s + 3 + (liveBytes b.grow).length ≤ b.grow.data.length + n := by
        rw [hg5, hg1]
        omega
      obtain ⟨r1, r2, r3, r4⟩ := ih b.grow s hokg hfg
      rw [hg5] at r2
      rw [hg4] at r3
      rw [hg5] at r4
      exact ⟨r1, r2, r3, r4⟩

lemma encodeAll_append (ps qs : List (List Nat)) :
    encodeAll (ps ++ qs) = encodeAll ps ++ encodeAll qs := by
  simp [encodeAll]

lemma encodeAll_cons (p : List Nat) (ps : List (List Nat)) :
    encodeAll (p :: ps) = encodePkt p ++ encodeAll ps := by
  simp [encodeAll]

lemma encodeAll_length (ps : List (List Nat)) :
    (encodeAll ps).length = (ps.map (fun p => 2 + p.length)).sum := by
  induction ps with
  | nil => rfl
  | cons p ps ih => simp [encodeAll_cons, encodePkt, ih]; omega

lemma putByte_specB (b : Buffer) (x : Nat)
    (hh : b.head < b.data.length) (ht : b.tail < b.data.length)
    (hroom : (liveBytes b).length + 2 ≤ b.data.length) :
    (b.putByte x).data.length = b.data.length ∧
    (b.putByte x).head = b.head ∧
    (b.putByte x).count = b.count ∧
    (b.putByte x).head < (b.putByte x).data.length ∧
    (b.putByte x).tail < (b.putByte x).data.length ∧
    liveBytes (b.putByte x) = liveBytes b ++ [x] := by
  obtain ⟨d, h, t, c⟩ := b
  simp only [liveBytes] at hroom ⊢
  dsimp only at hh ht hroom ⊢
  have hstep := liveSeg_set_step d x h t hh ht hroom
  simp only [Buffer.putByte]
  by_cases hw : t + 1 ≥ (d.set t x).length
  · rw [if_pos hw]
    rw [List.length_set] at hw
    rw [if_pos hw] at hstep
    refine ⟨by simp, rfl, rfl, by simp; omega, by simp; omega, hstep⟩
  · rw [if_neg hw]
    rw [List.length_set] at hw
    rw [if_neg hw] at hstep
    refine ⟨by simp, rfl, rfl, by simp; omega, by simp; omega, hstep⟩

lemma putBytes_specB (b : Buffer) (xs : List Nat)
    (hh : b.head < b.data.length) (ht : b.tail < b.data.length)
    (hroom : (liveBytes b).length + xs.length + 1 ≤ b.data.length) :
    (b.putBytes xs).data.length = b.data.length ∧
    (b.putBytes xs).head = b.head ∧
    (b.putBytes xs).count = b.count ∧
    (b.putBytes xs).head < (b.putBytes xs).data.length ∧
    (b.putBytes xs).tail < (b.putBytes xs).data.length ∧
    liveBytes (b.putBytes xs) = liveBytes b ++ xs := by
  obtain ⟨d, h, t, c⟩ := b
  obtain ⟨r1, r2, r3, r4, r5⟩ := putBytes_spec d xs h t c hh ht hroom
  have hlb : liveBytes (Buffer.putBytes ⟨d, h, t, c⟩ xs)
      = liveSeg (Buffer.putBytes ⟨d, h, t, c⟩ xs).data h
        (Buffer.putBytes ⟨d, h, t, c⟩ xs).tail := by
    rw [liveBytes, r2]
  exact ⟨r1, r2, r3, by rw [r2, r1]; exact hh, by rw [r1]; exact r4, hlb.trans r5⟩

theorem write_spec (b : Buffer) (ps : List (List Nat)) (p : List Nat)
    (hwf : Wf b ps) (hp : p.length < 65536) :
    (b.Write p).2 = (p.length, none) ∧ Wf (b.Write p).1 (ps ++ [p]) := by
  obtain ⟨hcnt, hlive, hlens, hok⟩ := hwf
  simp only [Buffer.Write]
  rw [if_neg (by omega)]
  have hfuel : p.length + 3 + (liveBytes b).length ≤ b.data.length + b.growFuel p.length := by
    have := liveBytes_le_data b hok
    unfold Buffer.growFuel
    omega
  obtain ⟨hok1, hlive1, hcnt1, hfree1⟩ :=
    growLoop_spec (b.growFuel p.length) b p.length hok hfuel
  set b1 := b.growLoop p.length (b.growFuel p.length) with hb1
  have hb1h : b1.head < b1.data.length ∧ b1.tail < b1.data.length := by
    rcases hok1 with ⟨h0, _, _⟩ | ⟨h1, h2, _⟩
    · omega
    · exact ⟨h1, h2⟩
  obtain ⟨q1, q2, q3, q4, q5, q6⟩ := putByte_specB b1 (p.length / 256 % 256)
    hb1h.1 hb1h.2 (by rw [hlive1]; omega)
  set b2 := b1.putByte (p.length / 256 % 256) with hb2
  obtain ⟨r1, r2, r3, r4, r5, r6⟩ := putByte_specB b2 (p.length % 256)
    q4 q5 (by rw [q6, hlive1]; simp; omega)
  set b3 := b2.putByte (p.length % 256) with hb3
  obtain ⟨s1, s2, s3, s4, s5, s6⟩ := putBytes_specB b3 p
    r4 r5 (by rw [r6, q6, hlive1]; simp; omega)
  set b4 := b3.putBytes p with hb4
  clear_value b1 b2 b3 b4
  refine ⟨rfl, ?_, ?_, ?_, ?_⟩
  · show b4.count + 1 = _
    rw [s3, r3, q3, hcnt1, hcnt]
    simp
  · show liveBytes ⟨b4.data, b4.head, b4.tail, b4.count + 1⟩ = _
    have : liveBytes ⟨b4.data, b4.head, b4.tail, b4.count + 1⟩ = liveBytes b4 := rfl
    rw [this, s6, r6, q6, hlive1, hlive, encodeAll_append]
    simp [encodeAll, encodePkt]
  · intro q hq
    rcases List.mem_append.1 hq with hq1 | hq2
    · exact hlens q hq1
    · rw [List.mem_singleton.1 hq2]
      exact hp
  · right
    refine ⟨?_, ?_, ?_⟩
    · show b4.head < b4.data.length
      exact s4
    · show b4.tail < b4.data.length
      exact s5
    · show (liveBytes ⟨b4.data, b4.head, b4.tail, b4.count + 1⟩).length < b4.data.length
      have : liveBytes ⟨b4.data, b4.head, b4.tail, b4.count + 1⟩ = liveBytes b4 := rfl
      rw [this, s6, r6, q6, hlive1, s1, r1, q1]
      simp
      omega

lemma liveSeg_nil (h t : Nat) : liveSeg [] h t = [] := by
  simp [liveSeg]

lemma takeByte_specB (b : Buffer) (x : Nat) (L : List Nat)
    (hh : b.head < b.data.length) (ht : b.tail < b.data.length)
    (hlive : liveBytes b = x :: L) :
    (b.takeByte).2 = x ∧
    (b.takeByte).1.data = b.data ∧
    (b.takeByte).1.tail = b.tail ∧
    (b.takeByte).1.count = b.count ∧
    (b.takeByte).1.head < b.data.length ∧
    liveBytes (b.takeByte).1 = L := by
  obtain ⟨d, h, t, c⟩ := b
  obtain ⟨w1, w2, w3, w4, w5, w6⟩ := takeByte_spec d h t c x L hh ht hlive
  refine ⟨w1, w2, w3, w4, w5, ?_⟩
  rw [liveBytes, w2, w3]
  exact w6

lemma peekBytes_specB (b : Buffer) (dst : List Nat) (cnt : Nat)
    (hh : b.head < b.data.length) (ht : b.tail < b.data.length)
    (hcnt : cnt ≤ (liveBytes b).length) (hdst : cnt ≤ dst.length) :
    b.peekBytes dst cnt = (liveBytes b).take cnt ++ dst.drop cnt := by
  obtain ⟨d, h, t, c⟩ := b
  exact peekBytes_spec d dst h t cnt c hh ht hcnt hdst

theorem read_empty_eq (b : Buffer) (dst : List Nat) (heq : b.head = b.tail) :
    b.Read dst = (b, dst, 0, none) := by
  simp only [Buffer.Read]
  rw [if_neg (by simp [heq])]

lemma wf_nil_head_eq_tail (b : Buffer) (hwf : Wf b []) : b.head = b.tail := by
  obtain ⟨hcnt, hlive, hlens, hok⟩ := hwf
  rcases hok with ⟨h0, hh0, ht0⟩ | ⟨h1, h2, h3⟩
  · rw [hh0, ht0]
  · by_contra hne
    have hlen := liveSeg_length b.data b.head b.tail h1 h2
    rw [← liveBytes] at hlen
    have hl0 : (liveBytes b).length = 0 := by rw [hlive]; rfl
    rw [hl0] at hlen
    split at hlen <;> omega

theorem read_spec (b : Buffer) (p : List Nat) (ps : List (List Nat)) (dst : List Nat)
    (hwf : Wf b (p :: ps)) (hdst : p.length ≤ dst.length) :
    (b.Read dst).2.1 = p ++ dst.drop p.length ∧
    (b.Read dst).2.2.1 = p.length ∧
    (b.Read dst).2.2.2 = none ∧
    Wf (b.Read dst).1 ps := by
  obtain ⟨hcnt, hlive, hlens, hok⟩ := hwf
  have hp : p.length < 65536 := hlens p (by simp)
  have hl : liveBytes b
      = (p.length / 256 % 256) :: ((p.length % 256) :: (p ++ encodeAll ps)) := by
    rw [hlive, encodeAll_cons]
    simp [encodePkt]
  have hbounds : b.head < b.data.length ∧ b.tail < b.data.length ∧
      (liveBytes b).length < b.data.length := by
    rcases hok with ⟨h0, hh0, ht0⟩ | hb
    · exfalso
      rw [List.length_eq_zero] at h0
      have : liveBytes b = [] := by
        rw [liveBytes, h0, liveSeg_nil]
      rw [this] at hl
      exact List.noConfusion hl
    · exact hb
  have hne : b.head ≠ b.tail := by
    intro hcon
    have : liveBytes b = [] := by
      rw [liveBytes, hcon, liveSeg_self]
    rw [this] at hl
    exact List.noConfusion hl
  simp only [Buffer.Read]
  rw [if_pos hne]
  obtain ⟨w1, w2, w3, w4, w5, w6⟩ := takeByte_specB b _ _ hbounds.1 hbounds.2.1 hl
  rw [w1]
  set bA := (b.takeByte).1 with hbA
  obtain ⟨v1, v2, v3, v4, v5, v6⟩ := takeByte_specB bA _ _
    (by rw [w2]; exact w5) (by rw [w2, w3]; exact hbounds.2.1) w6
  rw [v1]
  set bB := (bA.takeByte).1 with hbB
  have hBd : bB.data = b.data := by rw [v2, w2]
  have hBh : bB.head < bB.data.length := by rw [hBd, ← w2]; exact v5
  have hBt : bB.tail < bB.data.length := by rw [hBd, v3, w3]; exact hbounds.2.1
  have hBc : bB.count = b.count := by rw [v4, w4]
  clear_value bA bB
  have hcnt2 : p.length / 256 % 256 * 256 + p.length % 256 = p.length := by omega
  rw [hcnt2]
  rw [if_neg (show ¬ dst.length < p.length by omega)]
  have hlB : p.length ≤ (liveBytes bB).length := by
    rw [v6]
    simp
  rw [peekBytes_specB bB dst p.length hBh hBt hlB hdst, v6]
  have htake : (p ++ encodeAll ps).take p.length = p := by
    rw [List.take_append_eq_append_take, List.take_of_length_le (le_refl p.length),
      Nat.sub_self, List.take_zero, List.append_nil]
  rw [htake]
  have hlseg : liveSeg bB.data bB.head bB.tail = p ++ encodeAll ps := v6
  obtain ⟨ha1, ha2⟩ := liveSeg_advance bB.data bB.head bB.tail p.length hBh hBt
    (by rw [hlseg]; simp)
  rw [hlseg] at ha2
  have hdropleft : (p ++ encodeAll ps).drop p.length = encodeAll ps := by
    rw [List.drop_append_eq_append_drop, List.drop_eq_nil_of_le (le_refl p.length),
      Nat.sub_self, List.drop_zero, List.nil_append]
  rw [hdropleft] at ha2
  have hcount : bB.count - 1 = ((ps.length : Int)) := by
    rw [hBc, hcnt]
    simp
  have hlivelen : (p ++ encodeAll ps).length < b.data.length := by
    have h1 : (liveBytes b).length = (p ++ encodeAll ps).length + 2 := by
      rw [hl]
      simp
    omega
  refine ⟨rfl, rfl, rfl, ?_⟩
  dsimp only
  by_cases hw : bB.head + p.length ≥ bB.data.length
  · rw [if_pos hw] at ha1 ha2 ⊢
    dsimp only
    by_cases heq : bB.head + p.length - bB.data.length = bB.tail
    · rw [if_pos heq]
      have hnil : encodeAll ps = [] := by
        rw [← ha2, heq, liveSeg_self]
      refine ⟨by dsimp only; exact hcount, ?_, fun q hq => hlens q (by simp [hq]), ?_⟩
      · rw [liveBytes]
        dsimp only
        rw [liveSeg_self, hnil]
      · right
        dsimp only
        refine ⟨by omega, by omega, ?_⟩
        rw [liveBytes]
        dsimp only
        rw [liveSeg_self]
        simp
        omega
    · rw [if_neg heq]
      refine ⟨by dsimp only; exact hcount, ?_, fun q hq => hlens q (by simp [hq]), ?_⟩
      · rw [liveBytes]
        dsimp only
        exact ha2
      · right
        dsimp only
        refine ⟨ha1, by rw [hBd] at hBt ⊢; exact hBt, ?_⟩
        rw [liveBytes]
        dsimp only
        rw [ha2]
        have : (encodeAll ps).length ≤ (p ++ encodeAll ps).length := by simp
        rw [hBd]
        omega
  · rw [if_neg hw] at ha1 ha2 ⊢
    dsimp only
    by_cases heq : bB.head + p.length = bB.tail
    · rw [if_pos heq]
      have hnil : encodeAll ps = [] := by
        rw [← ha2, heq, liveSeg_self]
      refine ⟨by dsimp only; exact hcount, ?_, fun q hq => hlens q (by simp [hq]), ?_⟩
      · rw [liveBytes]
        dsimp only
        rw [liveSeg_self, hnil]
      · right
        dsimp only
        refine ⟨by omega, by omega, ?_⟩
        rw [liveBytes]
        dsimp only
        rw [liveSeg_self]
        simp
        omega
    · rw [if_neg heq]
      refine ⟨by dsimp only; exact hcount, ?_, fun q hq => hlens q (by simp [hq]), ?_⟩
      · rw [liveBytes]
        dsimp only
        exact ha2
      · right
        dsimp only
        refine ⟨ha1, by rw [hBd] at hBt ⊢; exact hBt, ?_⟩
        rw [liveBytes]
        dsimp only
        rw [ha2]
        have : (encodeAll ps).length ≤ (p ++ encodeAll ps).length := by simp
        rw [hBd]
        omega

theorem read_short_raw (b : Buffer) (n1 n2 : Nat) (R : List Nat) (dst : List Nat)
    (hh : b.head < b.data.length) (ht : b.tail < b.data.length)
    (hlive : liveBytes b = n1 :: n2 :: R)
    (hshort : dst.length < n1 * 256 + n2) :
    (b.Read dst).2.1 = dst ∧
    (b.Read dst).2.2.1 = 0 ∧
    (b.Read dst).2.2.2 = some (BufErr.shortBuffer (n1 * 256 + n2)) ∧
    (b.Read dst).1.data = b.data ∧
    (b.Read dst).1.tail = b.tail ∧
    (b.Read dst).1.count = b.count ∧
    (b.Read dst).1.head < (b.Read dst).1.data.length ∧
    liveBytes (b.Read dst).1 = R := by
  have hne : b.head ≠ b.tail := by
    intro hcon
    have : liveBytes b = [] := by rw [liveBytes, hcon, liveSeg_self]
    rw [this] at hlive
    exact List.noConfusion hlive
  simp only [Buffer.Read]
  rw [if_pos hne]
  obtain ⟨w1, w2, w3, w4, w5, w6⟩ := takeByte_specB b _ _ hh ht hlive
  rw [w1]
  set bA := (b.takeByte).1 with hbA
  obtain ⟨v1, v2, v3, v4, v5, v6⟩ := takeByte_specB bA _ _
    (by rw [w2]; exact w5) (by rw [w2, w3]; exact ht) w6
  rw [v1]
  set bB := (bA.takeByte).1 with hbB
  clear_value bA bB
  rw [if_pos hshort]
  exact ⟨rfl, rfl, rfl, by rw [v2, w2], by rw [v3, w3], by rw [v4, w4],
    by rw [v2, w2, ← w2]; exact v5, v6⟩

lemma write_toobig (b : Buffer) (p : List Nat) (hp : 65536 ≤ p.length) :
    b.Write p = (b, 0, some BufErr.packetTooBig) := by
  simp only [Buffer.Write]
  rw [if_pos (by omega)]

lemma grow_data_length (b : Buffer) : (b.grow).data.length = growSize b.data.length := by
  obtain ⟨d, h, t, c⟩ := b
  simp only [Buffer.grow, growSize]
  split_ifs <;> simp [listCopy_length]

lemma grow_len_lt (b : Buffer) : b.data.length < (b.grow).data.length := by
  rw [grow_data_length]
  exact growSize_gt b.data.length

lemma wf_new : Wf NewBuffer [] := by
  refine ⟨rfl, ?_, by simp, Or.inl ⟨rfl, rfl, rfl⟩⟩
  rw [liveBytes]
  rfl

lemma size_live (b : Buffer) (hok : BufOk b) :
    b.Size = ((liveBytes b).length : Int) := by
  obtain ⟨d, h, t, c⟩ := b
  simp only [Buffer.Size, Buffer.size, liveBytes, BufOk] at *
  rcases hok with ⟨h0, hh0, ht0⟩ | ⟨hh, ht, hlive⟩
  · rw [List.length_eq_zero] at h0
    subst h0 hh0 ht0
    simp [liveSeg]
  · have hlen := liveSeg_length d h t hh ht
    rw [hlen]
    split_ifs <;> push_cast <;> omega

lemma grow_wf (b : Buffer) (ps : List (List Nat)) (hwf : Wf b ps) :
    Wf (b.grow) ps := by
  obtain ⟨hcnt, hlive, hlens, hok⟩ := hwf
  obtain ⟨g1, g2, g3, g4, g5⟩ := grow_spec b hok
  have hgm := growSize_ge_minSize b.data.length
  have hgt := growSize_gt b.data.length
  have hll := liveBytes_le_data b hok
  refine ⟨by rw [g4]; exact hcnt, by rw [g5]; exact hlive, hlens, ?_⟩
  right
  unfold minSize at hgm
  refine ⟨by rw [g2, g1]; omega, by rw [g3, g1]; omega, by rw [g5, g1]; omega⟩

lemma writeAll_wf : ∀ (qs : List (List Nat)) (b : Buffer) (ps : List (List Nat)),
    Wf b ps → (∀ p ∈ qs, p.length < 65536) → Wf (writeAll b qs) (ps ++ qs) := by
  intro qs
  induction qs with
  | nil => intro b ps hwf _; simpa [writeAll] using hwf
  | cons q qs ih =>
    intro b ps hwf hlen
    have hq : q.length < 65536 := hlen q (by simp)
    have hstep := (write_spec b ps q hwf hq).2
    have := ih (b.Write q).1 (ps ++ [q]) hstep (fun p hp => hlen p (by simp [hp]))
    simpa [writeAll, List.append_assoc] using this

lemma readSeq_spec : ∀ (dsts : List (List Nat)) (b : Buffer) (qs : List (List Nat)),
    Wf b qs → qs.length = dsts.length →
    (∀ pr ∈ qs.zip dsts, pr.1.length ≤ pr.2.length) →
    readSeq b dsts
      = qs.zipWith (fun p dst => (p ++ dst.drop p.length, p.length, (none : Option BufErr))) dsts := by
  intro dsts
  induction dsts with
  | nil =>
    intro b qs hwf hlen hfit
    simp [readSeq]
  | cons dst ds ih =>
    intro b qs hwf hlen hfit
    match qs with
    | [] => simp at hlen
    | q :: qs =>
      have hfit1 : q.length ≤ dst.length := hfit (q, dst) (by simp)
      obtain ⟨r1, r2, r3, r4⟩ := read_spec b q qs dst hwf hfit1
      simp only [readSeq, List.zipWith]
      rw [r1, r2, r3]
      have := ih (b.Read dst).1 qs r4 (by simpa using hlen)
        (fun pr hpr => hfit pr (by simp [hpr]))
      rw [this]

lemma exec_wf : ∀ (ops : List BufOp) (b : Buffer) (ps : List (List Nat)),
    Wf b ps → okOps ps ops = true → Wf (execOps b ops) (absRun ps ops) := by
  intro ops
  induction ops with
  | nil => intro b ps hwf _; simpa [execOps, absRun] using hwf
  | cons op rest ih =>
    intro b ps hwf hok
    match op with
    | BufOp.wr p =>
      simp only [execOps, absRun, List.foldl_cons] at *
      by_cases hp : p.length < 65536
      · have hstep := (write_spec b ps p hwf hp).2
        simp only [applyOp, absApply, if_pos hp] at *
        exact ih _ _ hstep (by simpa [okOps, absApply, if_pos hp] using hok)
      · have hbig : b.Write p = (b, 0, some BufErr.packetTooBig) := write_toobig b p (by omega)
        simp only [applyOp, absApply, if_neg hp] at *
        rw [hbig]
        exact ih _ _ hwf (by simpa [okOps, absApply, if_neg hp] using hok)
    | BufOp.rd dst =>
      simp only [execOps, absRun, List.foldl_cons] at *
      match hqs : ps with
      | [] =>
        have hempty := read_empty_eq b dst (wf_nil_head_eq_tail b hwf)
        simp only [applyOp, absApply, List.tail_nil] at *
        rw [hempty]
        exact ih _ _ hwf (by simpa [okOps, absApply] using hok)
      | q :: qs =>
        simp only [okOps, Bool.and_eq_true, decide_eq_true_eq] at hok
        obtain ⟨hfit, hrest⟩ := hok
        obtain ⟨r1, r2, r3, r4⟩ := read_spec b q qs dst hwf hfit
        simp only [applyOp, absApply, List.tail_cons] at *
        exact ih _ _ r4 hrest

lemma grow_head_count (b : Buffer) : (b.grow).head = 0 ∧ (b.grow).count = b.count := by
  obtain ⟨d, h, t, c⟩ := b
  simp only [Buffer.grow]
  split_ifs <;> exact ⟨rfl, rfl⟩

/-- C1: FIFO round trip. For any sequence of packets, each of length at most
65535 bytes, written into a fresh buffer, reading them back with adequately
sized destination buffers yields exactly the packets in write order: each read
returns the packet's length, no error, and the destination holds the packet's
bytes followed by its untouched tail. -/
theorem claim1_fifo_roundtrip (ps dsts : List (List Nat))
    (hlen : ∀ p ∈ ps, p.length ≤ 65535)
    (hn : ps.length = dsts.length)
    (hfit : ∀ pr ∈ ps.zip dsts, pr.1.length ≤ pr.2.length) :
    readSeq (writeAll NewBuffer ps) dsts
      = ps.zipWith (fun p dst => (p ++ dst.drop p.length, p.length, (none : Option BufErr))) dsts := by
  have hwf := writeAll_wf ps NewBuffer [] wf_new (fun p hp => by
    have := hlen p hp
    omega)
  simp only [List.nil_append] at hwf
  exact readSeq_spec dsts (writeAll NewBuffer ps) ps hwf hn hfit

/-- C1 witness: the round-trip theorem instantiated at two concrete packets. -/
theorem claim1_fifo_roundtrip_witness :
    readSeq (writeAll NewBuffer [[1], [2, 3]]) [[9], [8, 7]]
      = [([1], 1, none), ([2, 3], 2, none)] := by
  have := claim1_fifo_roundtrip [[1], [2, 3]] [[9], [8, 7]]
    (by decide) (by decide) (by decide)
  simpa using this

/-- C4: `Write` fails with `PacketTooBig` exactly when the packet length is
at least 65536; a failed write performs no mutation at all (the state, and
hence `Count()` and `Size()`, are unchanged) and returns 0 bytes; and any
packet shorter than 65536 bytes — in particular one of exactly 65535 bytes —
is written successfully with return `(len, nil)` from any well-formed state. -/
theorem claim4_packet_too_big (b : Buffer) (p : List Nat) :
    ((b.Write p).2.2 = some BufErr.packetTooBig ↔ 65536 ≤ p.length) ∧
    (65536 ≤ p.length →
      (b.Write p).1 = b ∧ (b.Write p).2.1 = 0 ∧
      (b.Write p).1.Count = b.Count ∧ (b.Write p).1.Size = b.Size) ∧
    (∀ ps, Wf b ps → p.length < 65536 → (b.Write p).2 = (p.length, none)) := by
  refine ⟨⟨?_, ?_⟩, ?_, ?_⟩
  · intro herr
    by_contra hlt
    simp only [Buffer.Write] at herr
    rw [if_neg (by omega)] at herr
    exact Option.noConfusion herr
  · intro hge
    rw [write_toobig b p hge]
  · intro hge
    rw [write_toobig b p hge]
    exact ⟨rfl, rfl, rfl, rfl⟩
  · intro ps hwf hlt
    exact (write_spec b ps p hwf hlt).1

/-- C4 witness: a 65536-byte payload is rejected and a 65535-byte payload is
accepted on a fresh buffer. -/
theorem claim4_packet_too_big_witness :
    ((NewBuffer.Write (List.replicate 65536 0)).2.2 = some BufErr.packetTooBig) ∧
    ((NewBuffer.Write (List.replicate 65535 0)).2 = ((List.replicate 65535 0).length, none)) := by
  constructor
  · exact (claim4_packet_too_big NewBuffer (List.replicate 65536 0)).1.2
      (by rw [List.length_replicate])
  · exact (claim4_packet_too_big NewBuffer (List.replicate 65535 0)).2.2 [] wf_new
      (by rw [List.length_replicate]; decide)

/-- C8: `available(s)` computes the free bytes as `head - tail`, adding the
capacity when that raw difference is at most zero, and returns true exactly
when `s + 2 + 1` does not exceed that count. -/
theorem claim8_available_formula (b : Buffer) (s : Nat) :
    b.available s = true ↔ ¬ ((s : Int) + 2 + 1 > specFreeBytes b) := by
  simp only [Buffer.available, specFreeBytes]
  split_ifs <;> simp_all

/-- C9: every growth step strictly increases the capacity, and `Write`
always succeeds with `(len(packet), nil)` for any packet shorter than 65536
bytes from any well-formed state (the growth loop terminates). -/
theorem claim9_write_total :
    (∀ b : Buffer, b.data.length < (b.grow).data.length) ∧
    (∀ (b : Buffer) (ps : List (List Nat)) (p : List Nat),
      Wf b ps → p.length < 65536 → (b.Write p).2 = (p.length, none)) :=
  ⟨grow_len_lt, fun b ps p hwf hp => (write_spec b ps p hwf hp).1⟩

/-- C9 witness: growth increases a fresh buffer's capacity, and writing a
3-byte packet succeeds. -/
theorem claim9_write_total_witness :
    NewBuffer.data.length < (NewBuffer.grow).data.length ∧
    (NewBuffer.Write [3, 1, 4]).2 = (3, none) := by
  refine ⟨claim9_write_total.1 NewBuffer, ?_⟩
  have := claim9_write_total.2 NewBuffer [] [3, 1, 4] wf_new (by decide)
  simpa using this

/-- C6: one growth step doubles the capacity below 128 KiB and multiplies it
by 5/4 at or above, with a floor of 2048 bytes; it always sets `head = 0` and
keeps `count`; and from any well-formed state it sets `tail` to the number of
live bytes (which are copied to offset 0) and preserves the queued packets'
contents and FIFO order. -/
theorem claim6_grow_step :
    (∀ b : Buffer, (b.grow).head = 0 ∧ (b.grow).count = b.count ∧
      (b.grow).data.length
        = (if b.data.length < 128 * 1024 then max (2 * b.data.length) 2048
            else max (5 * b.data.length / 4) 2048)) ∧
    (∀ (b : Buffer) (ps : List (List Nat)), Wf b ps →
      (b.grow).tail = (liveBytes b).length ∧ liveBytes (b.grow) = liveBytes b ∧
      Wf (b.grow) ps) := by
  constructor
  · intro b
    obtain ⟨gh, gc⟩ := grow_head_count b
    refine ⟨gh, gc, ?_⟩
    rw [grow_data_length]
    unfold growSize minSize cutoffSize
    dsimp only
    split_ifs <;> omega
  · intro b ps hwf
    obtain ⟨g1, g2, g3, g4, g5⟩ := grow_spec b hwf.2.2.2
    exact ⟨g3, g5, grow_wf b ps hwf⟩

/-- C6 witness: growing a fresh buffer yields a 2048-byte arena with both
cursors at 0 and the (empty) live contents preserved. -/
theorem claim6_grow_step_witness :
    (NewBuffer.grow).head = 0 ∧
    (NewBuffer.grow).data.length = 2048 ∧
    (NewBuffer.grow).tail = (liveBytes NewBuffer).length ∧
    liveBytes (NewBuffer.grow) = liveBytes NewBuffer := by
  obtain ⟨gh, gc, gd⟩ := claim6_grow_step.1 NewBuffer
  obtain ⟨gt, gl, _⟩ := claim6_grow_step.2 NewBuffer [] wf_new
  exact ⟨gh, by rw [gd]; rfl, gt, gl⟩

/-- C7: reading from a buffer with `Count() = 0` returns `(0, nil)` and does
not mutate anything, no matter how many times the read is repeated. -/
theorem claim7_empty_read_idempotent (b : Buffer) (ps : List (List Nat))
    (hwf : Wf b ps) (hc : b.Count = 0) :
    (∀ dst, b.Read dst = (b, dst, 0, none)) ∧
    (∀ dst n, readN b dst n = b) := by
  have hps : ps = [] := by
    obtain ⟨hcnt, _, _, _⟩ := hwf
    have : b.count = 0 := hc
    rw [this] at hcnt
    have : ps.length = 0 := by exact_mod_cast hcnt.symm
    exact List.length_eq_zero.1 this
  subst hps
  have heq := wf_nil_head_eq_tail b hwf
  have hread : ∀ dst, b.Read dst = (b, dst, 0, none) := fun dst => read_empty_eq b dst heq
  refine ⟨hread, ?_⟩
  intro dst n
  induction n with
  | zero => rfl
  | succ k ih =>
    show readN (b.Read dst).1 dst k = b
    rw [hread dst]
    exact ih

/-- C7 witness: the empty-read theorem at a fresh buffer, iterated 3 times. -/
theorem claim7_empty_read_idempotent_witness :
    NewBuffer.Read [4, 5] = (NewBuffer, [4, 5], 0, none) ∧
    readN NewBuffer [4, 5] 3 = NewBuffer := by
  obtain ⟨h1, h2⟩ := claim7_empty_read_idempotent NewBuffer [] wf_new (by decide)
  exact ⟨h1 [4, 5], h2 [4, 5] 3⟩

/-- C5: after any sequence of writes and successful reads starting from a
fresh buffer, `Size()` equals the sum of `2 + len(payload)` over the currently
queued packets and `Count()` equals the number of queued packets. -/
theorem claim5_size_count_accounting (ops : List BufOp) (hok : okOps [] ops = true) :
    (execOps NewBuffer ops).Size
      = (((absRun [] ops).map (fun p => (2 : Nat) + p.length)).sum : Int) ∧
    (execOps NewBuffer ops).Count = ((absRun [] ops).length : Int) := by
  obtain ⟨hcnt, hlive, _, hokb⟩ := exec_wf ops NewBuffer [] wf_new hok
  constructor
  · rw [size_live _ hokb, hlive, encodeAll_length]
  · exact hcnt

/-- C5 witness: the accounting theorem at a concrete operation sequence. -/
theorem claim5_size_count_accounting_witness :
    (execOps NewBuffer [BufOp.wr [1, 2], BufOp.rd [0, 0], BufOp.wr [7]]).Size = 3 ∧
    (execOps NewBuffer [BufOp.wr [1, 2], BufOp.rd [0, 0], BufOp.wr [7]]).Count = 1 := by
  have h := claim5_size_count_accounting [BufOp.wr [1, 2], BufOp.rd [0, 0], BufOp.wr [7]]
    (by decide)
  simpa [absRun, absApply] using h

/-- C10: writing a zero-length packet returns `(0, nil)` and sets
`Count() = 1`; the subsequent read also returns `(0, nil)` with the
destination untouched — indistinguishable, by return value and error alone,
from reading an empty buffer (shown last) — yet it consumes the record,
dropping `Count()` back to 0. -/
theorem claim10_zero_length_packet :
    (NewBuffer.Write []).2 = (0, none) ∧
    (NewBuffer.Write []).1.Count = 1 ∧
    ((NewBuffer.Write []).1.Read [9, 9, 9, 9]).2.1 = [9, 9, 9, 9] ∧
    ((NewBuffer.Write []).1.Read [9, 9, 9, 9]).2.2.1 = 0 ∧
    ((NewBuffer.Write []).1.Read [9, 9, 9, 9]).2.2.2 = none ∧
    ((NewBuffer.Write []).1.Read [9, 9, 9, 9]).1.Count = 0 ∧
    NewBuffer.Read [9, 9, 9, 9] = (NewBuffer, [9, 9, 9, 9], 0, none) := by
  have hw := write_spec NewBuffer [] [] wf_new (by norm_num)
  have hwf1 : Wf (NewBuffer.Write []).1 [[]] := by simpa using hw.2
  have hr := read_spec (NewBuffer.Write []).1 [] [] [9, 9, 9, 9] hwf1 (by norm_num)
  refine ⟨hw.1, ?_, by simpa using hr.1, hr.2.1, hr.2.2.1, ?_, ?_⟩
  · show (NewBuffer.Write []).1.count = 1
    rw [hwf1.1]
    rfl
  · show ((NewBuffer.Write []).1.Read [9, 9, 9, 9]).1.count = 0
    rw [hr.2.2.2.1]
    rfl
  · exact read_empty_eq NewBuffer [9, 9, 9, 9] rfl

/-- C3 counterexample: in the concrete scenario (write `[0,1]`; read;
write `[2,3,4]`; write `[5,6,7]`), `Size()` returns 10 — the live bytes
including the two 2-byte headers — and not 6 as the claim states. -/
theorem claim3_size_counterexample :
    ((((NewBuffer.Write [0, 1]).1.Read [0, 0, 0, 0]).1.Write [2, 3, 4]).1.Write [5, 6, 7]).1.Size
        = 10 ∧
    ¬ ((((NewBuffer.Write [0, 1]).1.Read [0, 0, 0, 0]).1.Write [2, 3, 4]).1.Write
        [5, 6, 7]).1.Size = 6 := by
  have h1 := write_spec NewBuffer [] [0, 1] wf_new (by norm_num)
  have hwf1 : Wf (NewBuffer.Write [0, 1]).1 [[0, 1]] := by simpa using h1.2
  have h2 := read_spec (NewBuffer.Write [0, 1]).1 [0, 1] [] [0, 0, 0, 0] hwf1 (by norm_num)
  have h3 := write_spec _ [] [2, 3, 4] h2.2.2.2 (by norm_num)
  have hwf3 : Wf ((((NewBuffer.Write [0, 1]).1.Read [0, 0, 0, 0]).1.Write [2, 3, 4]).1)
      [[2, 3, 4]] := by simpa using h3.2
  have h4 := write_spec _ [[2, 3, 4]] [5, 6, 7] hwf3 (by norm_num)
  have hsz := size_live _ h4.2.2.2.2
  rw [h4.2.2.1] at hsz
  constructor
  · rw [hsz]
    norm_num [encodeAll, encodePkt]
  · rw [hsz]
    norm_num [encodeAll, encodePkt]

/-- C3 amended: the concrete scenario with the corrected `Size()` value.
Starting empty: `Write [0,1]` returns `(2, none)`; `Read buf4` returns
`(2, none)` with `buf4` beginning `[0,1]`; `Write [2,3,4]` and `Write [5,6,7]`
both return `(3, none)`; `Count() = 2`; `Size() = 10`; the next two reads
return `(3, none)` with contents `[2,3,4]` and `[5,6,7]`; a final read
returns `(0, none)`. -/
theorem claim3_scenario_amended :
    (NewBuffer.Write [0, 1]).2 = (2, none) ∧
    (((NewBuffer.Write [0, 1]).1.Read [0, 0, 0, 0]).2.1.take 2 = [0, 1] ∧
      ((NewBuffer.Write [0, 1]).1.Read [0, 0, 0, 0]).2.2.1 = 2 ∧
      ((NewBuffer.Write [0, 1]).1.Read [0, 0, 0, 0]).2.2.2 = none) ∧
    (((NewBuffer.Write [0, 1]).1.Read [0, 0, 0, 0]).1.Write [2, 3, 4]).2 = (3, none) ∧
    ((((NewBuffer.Write [0, 1]).1.Read [0, 0, 0, 0]).1.Write [2, 3, 4]).1.Write [5, 6, 7]).2
        = (3, none) ∧
    ((((NewBuffer.Write [0, 1]).1.Read [0, 0, 0, 0]).1.Write [2, 3, 4]).1.Write
        [5, 6, 7]).1.Count = 2 ∧
    ((((NewBuffer.Write [0, 1]).1.Read [0, 0, 0, 0]).1.Write [2, 3, 4]).1.Write
        [5, 6, 7]).1.Size = 10 ∧
    (((((NewBuffer.Write [0, 1]).1.Read [0, 0, 0, 0]).1.Write [2, 3, 4]).1.Write
        [5, 6, 7]).1.Read [0, 0, 0, 0]).2.1.take 3 = [2, 3, 4] ∧
    (((((NewBuffer.Write [0, 1]).1.Read [0, 0, 0, 0]).1.Write [2, 3, 4]).1.Write
        [5, 6, 7]).1.Read [0, 0, 0, 0]).2.2.1 = 3 ∧
    (((((NewBuffer.Write [0, 1]).1.Read [0, 0, 0, 0]).1.Write [2, 3, 4]).1.Write
        [5, 6, 7]).1.Read [0, 0, 0, 0]).2.2.2 = none ∧
    ((((((NewBuffer.Write [0, 1]).1.Read [0, 0, 0, 0]).1.Write [2, 3, 4]).1.Write
        [5, 6, 7]).1.Read [0, 0, 0, 0]).1.Read [0, 0, 0, 0]).2.1.take 3 = [5, 6, 7] ∧
    ((((((NewBuffer.Write [0, 1]).1.Read [0, 0, 0, 0]).1.Write [2, 3, 4]).1.Write
        [5, 6, 7]).1.Read [0, 0, 0, 0]).1.Read [0, 0, 0, 0]).2.2.1 = 3 ∧
    ((((((NewBuffer.Write [0, 1]).1.Read [0, 0, 0, 0]).1.Write [2, 3, 4]).1.Write
        [5, 6, 7]).1.Read [0, 0, 0, 0]).1.Read [0, 0, 0, 0]).2.2.2 = none ∧
    (((((((NewBuffer.Write [0, 1]).1.Read [0, 0, 0, 0]).1.Write [2, 3, 4]).1.Write
        [5, 6, 7]).1.Read [0, 0, 0, 0]).1.Read [0, 0, 0, 0]).1.Read [0, 0, 0, 0]).2.2.1 = 0 ∧
    (((((((NewBuffer.Write [0, 1]).1.Read [0, 0, 0, 0]).1.Write [2, 3, 4]).1.Write
        [5, 6, 7]).1.Read [0, 0, 0, 0]).1.Read [0, 0, 0, 0]).1.Read [0, 0, 0, 0]).2.2.2
        = none := by
  have h1 := write_spec NewBuffer [] [0, 1] wf_new (by norm_num)
  have hwf1 : Wf (NewBuffer.Write [0, 1]).1 [[0, 1]] := by simpa using h1.2
  have h2 := read_spec (NewBuffer.Write [0, 1]).1 [0, 1] [] [0, 0, 0, 0] hwf1 (by norm_num)
  have h3 := write_spec _ [] [2, 3, 4] h2.2.2.2 (by norm_num)
  have hwf3 : Wf ((((NewBuffer.Write [0, 1]).1.Read [0, 0, 0, 0]).1.Write [2, 3, 4]).1)
      [[2, 3, 4]] := by simpa using h3.2
  have h4 := write_spec _ [[2, 3, 4]] [5, 6, 7] hwf3 (by norm_num)
  have hwf4 : Wf (((((NewBuffer.Write [0, 1]).1.Read [0, 0, 0, 0]).1.Write [2, 3, 4]).1.Write
      [5, 6, 7]).1) [[2, 3, 4], [5, 6, 7]] := by simpa using h4.2
  have h5 := read_spec _ [2, 3, 4] [[5, 6, 7]] [0, 0, 0, 0] hwf4 (by norm_num)
  have h6 := read_spec _ [5, 6, 7] [] [0, 0, 0, 0] h5.2.2.2 (by norm_num)
  have h7 := read_empty_eq _ [0, 0, 0, 0] (wf_nil_head_eq_tail _ h6.2.2.2)
  have hsz := size_live _ hwf4.2.2.2
  rw [hwf4.2.1] at hsz
  refine ⟨h1.1, ⟨by rw [h2.1]; rfl, h2.2.1, h2.2.2.1⟩, h3.1, h4.1, ?_, ?_,
    by rw [h5.1]; rfl, h5.2.1, h5.2.2.1, by rw [h6.1]; rfl, h6.2.1, h6.2.2.1, ?_, ?_⟩
  · show _ = (2 : Int)
    rw [Buffer.Count, hwf4.1]
    rfl
  · rw [hsz]
    norm_num [encodeAll, encodePkt]
  · rw [h7]
  · rw [h7]

/-- C2: evidence of the short-buffer bug.  After writing the packet `[7, 8]`
into a fresh buffer, a `Read` with a 1-byte destination fails with the
short-buffer error naming 2 (the minimum size) and returns 0 bytes, leaving
`tail`, `count` and the arena unchanged — but `head` HAS moved (it was
advanced past the 2-byte header and never restored), so a retry with a
4-byte destination does not return the record `[7, 8]`: it misparses the
payload bytes as a length header and fails with a short-buffer error naming
1800.  The code therefore violates the claim's no-mutation requirement. -/
theorem claim2_short_read_corrupts :
    ((NewBuffer.Write [7, 8]).1.Read [0]).2.2.2 = some (BufErr.shortBuffer 2) ∧
    ((NewBuffer.Write [7, 8]).1.Read [0]).2.2.1 = 0 ∧
    ((NewBuffer.Write [7, 8]).1.Read [0]).2.1 = [0] ∧
    ((NewBuffer.Write [7, 8]).1.Read [0]).1.count = (NewBuffer.Write [7, 8]).1.count ∧
    ((NewBuffer.Write [7, 8]).1.Read [0]).1.tail = (NewBuffer.Write [7, 8]).1.tail ∧
    ((NewBuffer.Write [7, 8]).1.Read [0]).1.data = (NewBuffer.Write [7, 8]).1.data ∧
    ((NewBuffer.Write [7, 8]).1.Read [0]).1.head ≠ (NewBuffer.Write [7, 8]).1.head ∧
    (((NewBuffer.Write [7, 8]).1.Read [0]).1.Read [0, 0, 0, 0]).2.2.2
      = some (BufErr.shortBuffer 1800) := by
  have hw := write_spec NewBuffer [] [7, 8] wf_new (by norm_num)
  have hwf1 : Wf (NewBuffer.Write [7, 8]).1 [[7, 8]] := by simpa using hw.2
  obtain ⟨hcnt1, hlive1, _, hok1⟩ := hwf1
  have hlive1x : liveBytes (NewBuffer.Write [7, 8]).1 = 0 :: 2 :: [7, 8] := by
    rw [hlive1]
    rfl
  have hb1 : (NewBuffer.Write [7, 8]).1.head < (NewBuffer.Write [7, 8]).1.data.length ∧
      (NewBuffer.Write [7, 8]).1.tail < (NewBuffer.Write [7, 8]).1.data.length := by
    rcases hok1 with ⟨h0, hh0, ht0⟩ | ⟨ha, hb, _⟩
    · exfalso
      rw [List.length_eq_zero] at h0
      have : liveBytes (NewBuffer.Write [7, 8]).1 = [] := by
        rw [liveBytes, h0, liveSeg_nil]
      rw [this] at hlive1x
      exact List.noConfusion hlive1x
    · exact ⟨ha, hb⟩
  obtain ⟨s1, s2, s3, s4, s5, s6, s7, s8⟩ :=
    read_short_raw (NewBuffer.Write [7, 8]).1 0 2 [7, 8] [0] hb1.1 hb1.2 hlive1x
      (by norm_num)
  have hhead : ((NewBuffer.Write [7, 8]).1.Read [0]).1.head
      ≠ (NewBuffer.Write [7, 8]).1.head := by
    intro hcon
    have hsame : liveBytes ((NewBuffer.Write [7, 8]).1.Read [0]).1
        = liveBytes (NewBuffer.Write [7, 8]).1 := by
      rw [liveBytes, liveBytes, s4, s5, hcon]
    exact absurd (s8.symm.trans (hsame.trans hlive1x)) (by decide)
  obtain ⟨u1, u2, u3, u4, u5, u6, u7, u8⟩ :=
    read_short_raw ((NewBuffer.Write [7, 8]).1.Read [0]).1 7 8 [] [0, 0, 0, 0]
      s7 (by rw [s5, s4]; exact hb1.2) s8 (by norm_num)
  exact ⟨s3, s2, s1, s6, s5, s4, hhead, u3⟩
